import Mathlib

/-!
Shallow embedding of `src/FuncExtract.cpp` (LLVM region input/output
variable classification pass) and proofs about its components:
the block-list reader, the region matcher, the def/use source walker,
the operand classification engine, the region line-bound computation
and the debug-type resolver.
-/

namespace FuncExtract

/-! ## Type resolver: `getBaseType` (FuncExtract.cpp lines 311-346)

Debug-info types (`DIType`) are either basic types, composite types
(carrying a DWARF tag and a base type) or derived types (tag + base type).
`getBaseType` unwraps array composites and pointer derived types,
counting the unwrapped layers in `ptrlevel`. -/

/-- DWARF tag constant `DW_TAG_array_type` (= 0x01). -/
def DW_TAG_array_type : Nat := 1

/-- DWARF tag constant `DW_TAG_pointer_type` (= 0x0f). -/
def DW_TAG_pointer_type : Nat := 15

/-- Debug-info type metadata node, as inspected by `getBaseType`. -/
inductive DIType where
  | basic
  | composite (tag : Nat) (base : DIType)
  | derived (tag : Nat) (base : DIType)
  deriving DecidableEq, Repr

/-- The loop of `getBaseType` (lines 318-342): `ptrlevel` is the
accumulator; a basic type stops; an array composite or pointer derived
type unwraps and increments; any other tag stops without incrementing. -/
def getBaseTypeAux : DIType → Nat → DIType × Nat
  | .basic, ptrlevel => (.basic, ptrlevel)
  | .composite tag base, ptrlevel =>
    if tag = DW_TAG_array_type then getBaseTypeAux base (ptrlevel + 1)
    else (.composite tag base, ptrlevel)
  | .derived tag base, ptrlevel =>
    if tag = DW_TAG_pointer_type then getBaseTypeAux base (ptrlevel + 1)
    else (.derived tag base, ptrlevel)

/-- `getBaseType` (lines 311-346): starts the loop with `ptrlevel = 0`. -/
def getBaseType (T : DIType) : DIType × Nat := getBaseTypeAux T 0

/-- A wrapper layer: `true` stands for an array composite layer,
`false` for a pointer derived layer. -/
def wrapLayers : List Bool → DIType → DIType
  | [], t => t
  | l :: ls, t =>
    if l then .composite DW_TAG_array_type (wrapLayers ls t)
    else .derived DW_TAG_pointer_type (wrapLayers ls t)

/-! ## Region line bounds: `getRegionLoc` (lines 39-53)

The region is a list of blocks, each a list of instructions; an
instruction is represented by its optional attached source line
(`getDebugLoc`, `none` when the debug location is invalid).
`min` starts at `numeric_limits<unsigned>::max() = 2^32 - 1`,
`max` at `numeric_limits<unsigned>::min() = 0`. -/

/-- `std::numeric_limits<unsigned>::max()` for 32-bit `unsigned`. -/
def UINT_MAX : Nat := 2 ^ 32 - 1

/-- One iteration of the instruction loop of `getRegionLoc` (lines 45-49). -/
def regionLocStep (mm : Nat × Nat) (dl : Option Nat) : Nat × Nat :=
  match dl with
  | some line => (Nat.min mm.1 line, Nat.max mm.2 line)
  | none => mm

/-- `getRegionLoc` (lines 39-53): scan every instruction of every block of
the region and take the extremes of the attached source lines. -/
def getRegionLoc (blocks : List (List (Option Nat))) : Nat × Nat :=
  blocks.foldl (fun mm instrs => instrs.foldl regionLocStep mm) (UINT_MAX, 0)

/-! ## Block-list reader: `readBBListFile` (lines 56-92)

The file is a list of lines. A line of length zero is skipped.  Otherwise
the line is trimmed (`StringRef::trim`, trimming `" \t\n\v\f\r"`); if the
untrimmed line starts with `"!"` (`tempstr.find("!") == 0`) the trimmed
line is `ltrim`-med of `'!'` characters and introduces a function entry
(`StringMap::insert`, which inserts only if the key is absent) and becomes
the current key; any other line is inserted into the set of the current
key, or reported (`"Found basic block without parent"`) when the current
key has no entry in the map. -/

/-- The character set trimmed by `llvm::StringRef::trim()`. -/
def trimChars : List Char := [' ', '\t', '\n', '\x0b', '\x0c', '\r']

/-- `StringRef::trim`: drop leading and trailing whitespace characters. -/
def strTrim (s : String) : String :=
  ⟨(s.toList.dropWhile (· ∈ trimChars)).reverse.dropWhile (· ∈ trimChars)
    |>.reverse⟩

/-- `StringRef::ltrim("!")`: drop leading `'!'` characters. -/
def ltrimBang (s : String) : String := ⟨s.toList.dropWhile (· = '!')⟩

/-- `tempstr.find("!") == 0`: the untrimmed line starts with `'!'`. -/
def startsWithBang (s : String) : Bool :=
  match s.toList with
  | [] => false
  | c :: _ => c = '!'

/-- The `StringMap<DenseSet<StringRef>>` of the reader, as an association
list (keys are unique because only `insertIfAbsent` adds entries). -/
abbrev BBMap := List (String × Finset String)

/-- `StringMap::find`. -/
def lookupBB (m : BBMap) (k : String) : Option (Finset String) :=
  match m with
  | [] => none
  | (k', v) :: rest => if k' = k then some v else lookupBB rest k

/-- `StringMap::insert(kv)`: inserts only when the key is absent. -/
def insertIfAbsent (m : BBMap) (k : String) (v : Finset String) : BBMap :=
  match lookupBB m k with
  | some _ => m
  | none => m ++ [(k, v)]

/-- `(*it).getValue().insert(str)`: add a block name to the set held
under key `k` (line 87). -/
def insertBlock (m : BBMap) (k : String) (b : String) : BBMap :=
  m.map (fun kv => if kv.1 = k then (kv.1, insert b kv.2) else kv)

/-- Reader state: the map under construction, the `current` key
(a default-constructed `StringRef`, i.e. the empty string, initially)
and the number of "block without parent" reports emitted. -/
structure ReaderState where
  map : BBMap
  current : String
  errors : Nat
  deriving DecidableEq

/-- One iteration of the line loop of `readBBListFile` (lines 64-89). -/
def processLine (st : ReaderState) (line : String) : ReaderState :=
  if line.length = 0 then st
  else
    let str := strTrim line
    if startsWithBang line then
      let name := ltrimBang str
      { st with map := insertIfAbsent st.map name ∅, current := name }
    else
      match lookupBB st.map st.current with
      | none => { st with errors := st.errors + 1 }
      | some _ => { st with map := insertBlock st.map st.current str }

/-- `readBBListFile` (lines 56-92) over the list of lines of the file. -/
def readBBListFile (lines : List String) : ReaderState :=
  lines.foldl processLine ⟨[], "", 0⟩

/-! ## Region matcher: `isTargetRegion` (lines 96-109) -/

/-- `isTargetRegion`: look up the containing function's name; if absent
return false; otherwise check every region block's name is in the named
set and that the number of region blocks equals the set's size. -/
def isTargetRegion (regionlabels : BBMap) (fname : String)
    (regionBlocks : List String) : Bool :=
  match lookupBB regionlabels fname with
  | none => false
  | some blocks =>
    regionBlocks.all (fun b => b ∈ blocks) &&
      regionBlocks.length == blocks.card

/-! ## Values and the def/use source walker: `DFSInstruction` (lines 120-166)

A `Value` is an index into a list of `ValNode`s.  The node records the
LLVM dynamic kind that the walker and the classifier test with
`dyn_cast`/`isa`: `AllocaInst`, `GlobalValue`, `LoadInst`, `StoreInst`
(whose operand 0 is the stored value and operand 1 the pointer),
`MemCpyInst`, any other `Instruction`, or any other `Value` (constants,
arguments, ...).  Instruction nodes carry their containing basic block
(`Instruction::getParent`). -/

abbrev Val := Nat
abbrev BBlock := Nat

/-- A value of the embedded IR. -/
inductive ValNode where
  | alloca (ops : List Val) (parent : BBlock)
  | global
  | load (ops : List Val) (parent : BBlock)
  | store (vop pop : Val) (parent : BBlock)
  | memcpy (ops : List Val) (parent : BBlock)
  | instr (ops : List Val) (parent : BBlock)
  | other
  deriving DecidableEq, Repr

/-- Look a value up in the IR; out-of-range indices are plain values. -/
def nodeAt (g : List ValNode) (i : Val) : ValNode := g.getD i .other

/-- `dyn_cast<Instruction>` succeeds. -/
def ValNode.isInstruction : ValNode → Bool
  | .alloca _ _ => true
  | .load _ _ => true
  | .store _ _ _ => true
  | .memcpy _ _ => true
  | .instr _ _ => true
  | .global => false
  | .other => false

/-- `dyn_cast<GlobalValue>` succeeds. -/
def ValNode.isGlobalValue : ValNode → Bool
  | .global => true
  | _ => false

/-- `dyn_cast<AllocaInst>` succeeds. -/
def ValNode.isAllocaInst : ValNode → Bool
  | .alloca _ _ => true
  | _ => false

/-- `isa<StoreInst>` holds. -/
def ValNode.isStoreInst : ValNode → Bool
  | .store _ _ _ => true
  | _ => false

/-- `isa<LoadInst>` holds. -/
def ValNode.isLoadInst : ValNode → Bool
  | .load _ _ => true
  | _ => false

/-- `isa<MemCpyInst>` holds. -/
def ValNode.isMemCpyInst : ValNode → Bool
  | .memcpy _ _ => true
  | _ => false

/-- The operand list of a value (`op_begin()..op_end()`); a store's
operand 0 is the stored value and operand 1 the pointer operand. -/
def ValNode.operands : ValNode → List Val
  | .alloca ops _ => ops
  | .load ops _ => ops
  | .store vop pop _ => [vop, pop]
  | .memcpy ops _ => ops
  | .instr ops _ => ops
  | .global => []
  | .other => []

/-- `Instruction::getParent` (only instruction nodes have one; the
classifier only reads it after a successful instruction cast). -/
def ValNode.parentOf : ValNode → BBlock
  | .alloca _ parent => parent
  | .load _ parent => parent
  | .store _ _ parent => parent
  | .memcpy _ parent => parent
  | .instr _ parent => parent
  | .global => 0
  | .other => 0

/-- The operands the walker pushes when expanding a node
(lines 145-161): for a store only `getOperand(1)` (the destination);
for every other instruction every operand that is itself an instruction
or a global value; for non-instructions nothing. -/
def pushedOperands (g : List ValNode) : ValNode → List Val
  | .store _ pop _ => [pop]
  | n =>
    if n.isInstruction then
      n.operands.filter
        (fun o => (nodeAt g o).isInstruction || (nodeAt g o).isGlobalValue)
    else []

/-- The worklist loop of `DFSInstruction` (lines 126-163), fuelled:
pop the top of the stack, skip it if visited, collect it when it is an
alloca or a global value, mark it visited and push its traced operands.
The fuel only bounds the iteration count of the `while`; every theorem
below holds for every fuel, and on a finite IR a fuel of
`g.length + total operand count` exhausts the worklist. -/
def DFSAux (g : List ValNode) :
    Nat → List Val → Finset Val → List Val → List Val
  | 0, _, _, collected => collected
  | _ + 1, [], _, collected => collected
  | fuel + 1, current :: stack, visited, collected =>
    if current ∈ visited then DFSAux g fuel stack visited collected
    else
      DFSAux g fuel (pushedOperands g (nodeAt g current) ++ stack)
        (insert current visited)
        (if (nodeAt g current).isAllocaInst ∨ (nodeAt g current).isGlobalValue
          then collected ++ [current] else collected)

/-- `DFSInstruction` (lines 120-166): the walker started on `I`. -/
def DFSInstruction (g : List ValNode) (fuel : Nat) (I : Val) : List Val :=
  DFSAux g fuel [I] ∅ []

/-- One traced hop of the walker: `b` is among the operands pushed when
expanding `a`. -/
def tracedEdge (g : List ValNode) (a b : Val) : Prop :=
  b ∈ pushedOperands g (nodeAt g a)

/-! ## Scope test and operand classification (lines 222-308)

`debugInfo` is the map built by `getVariableDebugInfo`, abstracted to
the only attribute the classifier reads from a `DILocalVariable`:
its declared source line (`none` when the value has no entry). -/

/-- `variableDeclaredInRegion` (lines 296-308): a variable with no debug
info fails the test (after reporting); otherwise its declared line is
compared against the region's inclusive line bounds. -/
def variableDeclaredInRegion (V : Val) (regionBounds : Nat × Nat)
    (debugInfo : Val → Option Nat) : Bool :=
  match debugInfo V with
  | none => false
  | some line => regionBounds.1 ≤ line && line ≤ regionBounds.2

/-- The anomaly report of `variableDeclaredInRegion` (line 300,
`"No debug info for variable"`): emitted exactly when the lookup fails. -/
def declAnomalyReported (V : Val) (debugInfo : Val → Option Nat) : Bool :=
  (debugInfo V).isNone

/-- `user_begin()..user_end()` of a value: the values having it among
their operands. -/
def usersOf (g : List ValNode) (v : Val) : List Val :=
  (List.range g.length).filter (fun u => v ∈ (nodeAt g u).operands)

/-- The mutable state of `analyzeOperands`: the function-local static
`analyzed` set plus the `inputargs` and `outputargs` sets. -/
structure AnalysisState where
  analyzed : Finset Val
  inputargs : Finset Val
  outputargs : Finset Val
  deriving DecidableEq

/-- The body of the user loop of `analyzeOperands` (lines 247-258),
processing one user `u` of the alloca `v` while classifying
instruction `I`. -/
def userStep (g : List ValNode) (I : Val) (successors : Finset BBlock)
    (regionBounds : Nat × Nat) (debugInfo : Val → Option Nat) (v : Val)
    (t : AnalysisState) (u : Val) : AnalysisState :=
  let t1 : AnalysisState :=
    if (nodeAt g I).isMemCpyInst ∧ (nodeAt g u).parentOf ∈ successors then
      if variableDeclaredInRegion v regionBounds debugInfo then
        { t with outputargs := insert v t.outputargs }
      else t
    else t
  if (nodeAt g I).isStoreInst ∧ (nodeAt g u).parentOf ∈ successors then
    if variableDeclaredInRegion v regionBounds debugInfo then
      { t1 with outputargs := insert v t1.outputargs }
    else t1
  else t1

/-- The body of the source loop of `analyzeOperands` (lines 231-259):
skip an already-analyzed source, mark it analyzed, and when it is an
alloca apply the predecessor/input rule (lines 241-244) and the user
loop (lines 247-258). -/
def processSource (g : List ValNode) (I : Val)
    (predecessors successors : Finset BBlock) (regionBounds : Nat × Nat)
    (debugInfo : Val → Option Nat) (s : AnalysisState) (v : Val) :
    AnalysisState :=
  if v ∈ s.analyzed then s
  else
    let s1 : AnalysisState := { s with analyzed := insert v s.analyzed }
    if (nodeAt g v).isAllocaInst then
      let s2 : AnalysisState :=
        if (nodeAt g v).parentOf ∈ predecessors ∧
            ¬ variableDeclaredInRegion v regionBounds debugInfo then
          { s1 with inputargs := insert v s1.inputargs }
        else s1
      (usersOf g v).foldl (userStep g I successors regionBounds debugInfo v) s2
    else s1

/-- `analyzeOperands` (lines 222-272): run the walker on `I` and process
each collected source. -/
def analyzeOperands (g : List ValNode) (fuel : Nat) (I : Val)
    (predecessors successors : Finset BBlock) (regionBounds : Nat × Nat)
    (debugInfo : Val → Option Nat) (s : AnalysisState) : AnalysisState :=
  (DFSInstruction g fuel I).foldl
    (processSource g I predecessors successors regionBounds debugInfo) s

/-- The instruction filter of `runOnRegion` (line 437): only loads,
stores and memory copies are analyzed. -/
def relevantInstr (n : ValNode) : Bool :=
  n.isStoreInst || n.isLoadInst || n.isMemCpyInst

/-- The analysis loop of `runOnRegion` (lines 434-439) over the region's
instructions: one analysis run. -/
def analyzeRegion (g : List ValNode) (fuel : Nat) (instrs : List Val)
    (predecessors successors : Finset BBlock) (regionBounds : Nat × Nat)
    (debugInfo : Val → Option Nat) (s : AnalysisState) : AnalysisState :=
  instrs.foldl
    (fun s I =>
      if relevantInstr (nodeAt g I) then
        analyzeOperands g fuel I predecessors successors regionBounds
          debugInfo s
      else s) s

/-- The predecessor/input-rule condition of lines 241-244 on a value:
an alloca whose containing block is in the predecessor set and which is
not declared inside the region's line bounds. -/
def InputCondition (g : List ValNode) (predecessors : Finset BBlock)
    (regionBounds : Nat × Nat) (debugInfo : Val → Option Nat) (v : Val) :
    Prop :=
  (nodeAt g v).isAllocaInst = true ∧
    (nodeAt g v).parentOf ∈ predecessors ∧
    variableDeclaredInRegion v regionBounds debugInfo = false

/-- A concrete IR used to instantiate the theorems.  The region is block
1 (predecessor block 0, successor block 2, line bounds (5, 6)):
value 0 is an alloca in block 0 (declared at line 1), value 1 an alloca
in block 1 (declared at line 5), value 2 stores the constant 6 to
address 1, value 3 loads from 0, value 4 loads from 1 in block 2,
value 5 stores the loaded value 3 to address 1, value 6 is a constant,
value 7 an alloca in block 0 with no debug info, value 8 loads from 7. -/
def exampleIR : List ValNode :=
  [.alloca [] 0, .alloca [] 1, .store 6 1 1, .load [0] 1, .load [1] 2,
    .store 3 1 1, .other, .alloca [] 0, .load [7] 1]

/-- Debug lines of `exampleIR`: value 0 declared at line 1, value 1 at
line 5, everything else (in particular the alloca 7) unmapped. -/
def exampleDbg : Val → Option Nat :=
  fun v => if v = 0 then some 1 else if v = 1 then some 5 else none

/-! ## Helper lemmas -/

lemma getBaseTypeAux_wrapLayers (ls : List Bool) (n : Nat) :
    getBaseTypeAux (wrapLayers ls .basic) n = (.basic, n + ls.length) := by
  induction ls generalizing n with
  | nil => simp [wrapLayers, getBaseTypeAux]
  | cons l ls ih =>
    cases l <;>
      simp [wrapLayers, getBaseTypeAux, DW_TAG_array_type,
        DW_TAG_pointer_type, ih] <;> omega

lemma foldl_min_le_init (l : List Nat) (a : Nat) : l.foldl Nat.min a ≤ a := by
  induction l generalizing a with
  | nil => simp
  | cons x xs ih => exact le_trans (ih (Nat.min a x)) (Nat.min_le_left a x)

lemma foldl_min_le_mem {l : List Nat} {x : Nat} (h : x ∈ l) (a : Nat) :
    l.foldl Nat.min a ≤ x := by
  induction l generalizing a with
  | nil => cases h
  | cons y ys ih =>
    rcases List.mem_cons.mp h with rfl | h'
    · exact le_trans (foldl_min_le_init ys (Nat.min a x)) (Nat.min_le_right a x)
    · exact ih h' _

lemma foldl_min_init_or_mem (l : List Nat) (a : Nat) :
    l.foldl Nat.min a = a ∨ l.foldl Nat.min a ∈ l := by
  induction l generalizing a with
  | nil => left; rfl
  | cons x xs ih =>
    rcases ih (Nat.min a x) with h | h
    · rw [List.foldl_cons, h]
      rcases Nat.le_total a x with hax | hxa
      · left; unfold Nat.min; omega
      · right
        have hx : Nat.min a x = x := by unfold Nat.min; omega
        rw [hx]; exact List.mem_cons_self x xs
    · right; exact List.mem_cons_of_mem x h

lemma le_foldl_max_init (l : List Nat) (a : Nat) : a ≤ l.foldl Nat.max a := by
  induction l generalizing a with
  | nil => simp
  | cons x xs ih => exact le_trans (Nat.le_max_left a x) (ih (Nat.max a x))

lemma le_foldl_max_mem {l : List Nat} {x : Nat} (h : x ∈ l) (a : Nat) :
    x ≤ l.foldl Nat.max a := by
  induction l generalizing a with
  | nil => cases h
  | cons y ys ih =>
    rcases List.mem_cons.mp h with rfl | h'
    · exact le_trans (Nat.le_max_right a x) (le_foldl_max_init ys (Nat.max a x))
    · exact ih h' _

lemma foldl_max_init_or_mem (l : List Nat) (a : Nat) :
    l.foldl Nat.max a = a ∨ l.foldl Nat.max a ∈ l := by
  induction l generalizing a with
  | nil => left; rfl
  | cons x xs ih =>
    rcases ih (Nat.max a x) with h | h
    · rw [List.foldl_cons, h]
      rcases Nat.le_total a x with hax | hxa
      · right
        have hx : Nat.max a x = x := by unfold Nat.max; omega
        rw [hx]; exact List.mem_cons_self x xs
      · left; unfold Nat.max; omega
    · right; exact List.mem_cons_of_mem x h

lemma foldl_regionLocStep (l : List (Option Nat)) : ∀ mm : Nat × Nat,
    l.foldl regionLocStep mm =
      ((l.filterMap id).foldl Nat.min mm.1,
        (l.filterMap id).foldl Nat.max mm.2) := by
  induction l with
  | nil => intro mm; simp
  | cons x xs ih =>
    intro mm
    cases x with
    | none => simp [regionLocStep, ih]
    | some line =>
      simpa [regionLocStep] using ih (Nat.min mm.1 line, Nat.max mm.2 line)

lemma foldl_regionLoc_blocks (blocks : List (List (Option Nat))) :
    ∀ mm : Nat × Nat,
      blocks.foldl (fun mm instrs => instrs.foldl regionLocStep mm) mm =
        blocks.flatten.foldl regionLocStep mm := by
  induction blocks with
  | nil => intro mm; simp
  | cons b bs ih => intro mm; simp [List.foldl_append, ih]

/-! ## Claim theorems: type resolver and region bounds -/

/-- C6: `getBaseType` unwraps exactly the array-composite and
pointer-derived layers: a primitive wrapped in `N` such layers resolves
to the primitive with indirection depth `N`, while a composite with a
non-array tag or a derived type with a non-pointer tag is returned
unchanged with depth 0. -/
theorem getBaseType_spec :
    (∀ ls : List Bool, getBaseType (wrapLayers ls .basic) = (.basic, ls.length)) ∧
    (∀ (tag : Nat) (base : DIType), tag ≠ DW_TAG_array_type →
      getBaseType (.composite tag base) = (.composite tag base, 0)) ∧
    (∀ (tag : Nat) (base : DIType), tag ≠ DW_TAG_pointer_type →
      getBaseType (.derived tag base) = (.derived tag base, 0)) := by
  refine ⟨fun ls => ?_, fun tag base h => ?_, fun tag base h => ?_⟩
  · simpa [getBaseType] using getBaseTypeAux_wrapLayers ls 0
  · simp [getBaseType, getBaseTypeAux, h]
  · simp [getBaseType, getBaseTypeAux, h]

/-- Witness for C6 at concrete types: a primitive behind an
array-of-pointer-to-array nesting, a structure tag (0x13) and a typedef
tag (0x16). -/
theorem getBaseType_spec_witness :
    getBaseType (wrapLayers [true, false, true] .basic) = (.basic, 3) ∧
    getBaseType (.composite 19 .basic) = (.composite 19 .basic, 0) ∧
    getBaseType (.derived 22 .basic) = (.derived 22 .basic, 0) :=
  ⟨getBaseType_spec.1 [true, false, true],
    getBaseType_spec.2.1 19 .basic (by decide),
    getBaseType_spec.2.2 22 .basic (by decide)⟩

/-- C8: `getRegionLoc` returns the pair of the minimum and maximum
source lines over all located instructions of the region; when no
instruction carries a source line it returns the sentinel
`(UINT_MAX, 0)`, detectable by `min > max`, and on a nonempty line set
the result always satisfies `min ≤ max`. -/
theorem getRegionLoc_spec (blocks : List (List (Option Nat)))
    (lines : List Nat) (hlines : blocks.flatten.filterMap id = lines)
    (hw : ∀ l ∈ lines, l ≤ UINT_MAX) :
    (lines = [] →
      getRegionLoc blocks = (UINT_MAX, 0) ∧
        (getRegionLoc blocks).2 < (getRegionLoc blocks).1) ∧
    (lines ≠ [] →
      (getRegionLoc blocks).1 ∈ lines ∧ (getRegionLoc blocks).2 ∈ lines ∧
        (∀ l ∈ lines,
          (getRegionLoc blocks).1 ≤ l ∧ l ≤ (getRegionLoc blocks).2) ∧
        (getRegionLoc blocks).1 ≤ (getRegionLoc blocks).2) := by
  have hres : getRegionLoc blocks =
      (lines.foldl Nat.min UINT_MAX, lines.foldl Nat.max 0) := by
    rw [getRegionLoc, foldl_regionLoc_blocks, foldl_regionLocStep, hlines]
  constructor
  · intro he
    subst he
    simp only [List.foldl_nil] at hres
    refine ⟨hres, ?_⟩
    rw [hres]
    show 0 < UINT_MAX
    decide
  · intro hne
    obtain ⟨l0, hl0⟩ := List.exists_mem_of_ne_nil lines hne
    rw [hres]
    refine ⟨?_, ?_, ?_, ?_⟩
    · rcases foldl_min_init_or_mem lines UINT_MAX with h | h
      · have h1 : UINT_MAX ≤ l0 := h ▸ foldl_min_le_mem hl0 UINT_MAX
        have h2 : l0 = UINT_MAX := le_antisymm (hw l0 hl0) h1
        rw [h, ← h2]; exact hl0
      · exact h
    · rcases foldl_max_init_or_mem lines 0 with h | h
      · have h1 : l0 ≤ 0 := h ▸ le_foldl_max_mem hl0 0
        have h2 : l0 = 0 := Nat.le_zero.mp h1
        rw [h, ← h2]; exact hl0
      · exact h
    · exact fun l hl => ⟨foldl_min_le_mem hl UINT_MAX, le_foldl_max_mem hl 0⟩
    · exact le_trans (foldl_min_le_mem hl0 UINT_MAX) (le_foldl_max_mem hl0 0)

/-! ## Claim theorems: region matcher -/

/-- C3: `isTargetRegion` returns true exactly when the containing
function's name is mapped, every region block is in the named set and the
region's block count equals the set's size; an absent function name gives
false, and adding or removing one block from an exactly matching region
gives false. -/
theorem isTargetRegion_spec :
    (∀ (m : BBMap) (f : String) (bs : List String),
      isTargetRegion m f bs = true ↔
        ∃ s, lookupBB m f = some s ∧ (∀ b ∈ bs, b ∈ s) ∧
          bs.length = s.card) ∧
    (∀ (m : BBMap) (f : String) (bs : List String),
      lookupBB m f = none → isTargetRegion m f bs = false) ∧
    (∀ (m : BBMap) (f : String) (bs : List String) (s : Finset String),
      lookupBB m f = some s → bs.Nodup → bs.toFinset = s →
      isTargetRegion m f bs = true) ∧
    (∀ (m : BBMap) (f : String) (bs : List String) (s : Finset String)
      (b : String),
      lookupBB m f = some s → (b :: bs).Nodup → bs.toFinset = s →
      isTargetRegion m f (b :: bs) = false) ∧
    (∀ (m : BBMap) (f : String) (bs : List String) (s : Finset String)
      (b : String),
      lookupBB m f = some s → bs.Nodup → bs.toFinset = s → b ∈ bs →
      isTargetRegion m f (bs.erase b) = false) := by
  have hiff : ∀ (m : BBMap) (f : String) (bs : List String),
      isTargetRegion m f bs = true ↔
        ∃ s, lookupBB m f = some s ∧ (∀ b ∈ bs, b ∈ s) ∧
          bs.length = s.card := by
    intro m f bs
    cases h : lookupBB m f with
    | none => simp [isTargetRegion, h]
    | some s => simp [isTargetRegion, h, List.all_eq_true]
  refine ⟨hiff, ?_, ?_, ?_, ?_⟩
  · intro m f bs h
    simp [isTargetRegion, h]
  · intro m f bs s h hnd hts
    refine (hiff m f bs).mpr ⟨s, h, ?_, ?_⟩
    · intro b hb
      rw [← hts]
      exact List.mem_toFinset.mpr hb
    · rw [← hts, List.toFinset_card_of_nodup hnd]
  · intro m f bs s b h hnd hts
    rw [← Bool.not_eq_true]
    intro hc
    obtain ⟨s', hs', _, hlen⟩ := (hiff m f (b :: bs)).mp hc
    rw [h] at hs'
    obtain rfl : s = s' := by injection hs'
    have hcard : s.card = bs.length := by
      rw [← hts, List.toFinset_card_of_nodup (List.Nodup.of_cons hnd)]
    simp only [List.length_cons] at hlen
    omega
  · intro m f bs s b h hnd hts hb
    rw [← Bool.not_eq_true]
    intro hc
    obtain ⟨s', hs', _, hlen⟩ := (hiff m f (bs.erase b)).mp hc
    rw [h] at hs'
    obtain rfl : s = s' := by injection hs'
    have hcard : s.card = bs.length := by
      rw [← hts, List.toFinset_card_of_nodup hnd]
    have herase : (bs.erase b).length = bs.length - 1 :=
      List.length_erase_of_mem hb
    have hpos : 0 < bs.length := List.length_pos.mpr (List.ne_nil_of_mem hb)
    omega

/-- Witness for C3 on the mapping `f ↦ {a, b}`: exact match, absent
function, one block added, one block removed. -/
theorem isTargetRegion_spec_witness :
    isTargetRegion [("f", {"a", "b"})] "g" ["a", "b"] = false ∧
    isTargetRegion [("f", {"a", "b"})] "f" ["a", "b"] = true ∧
    isTargetRegion [("f", {"a", "b"})] "f" ("c" :: ["a", "b"]) = false ∧
    isTargetRegion [("f", {"a", "b"})] "f" (["a", "b"].erase "a") = false :=
  ⟨isTargetRegion_spec.2.1 _ _ _ (by decide),
    isTargetRegion_spec.2.2.1 _ _ ["a", "b"] {"a", "b"} (by decide)
      (by decide) (by decide),
    isTargetRegion_spec.2.2.2.1 _ _ ["a", "b"] {"a", "b"} "c" (by decide)
      (by decide) (by decide),
    isTargetRegion_spec.2.2.2.2 _ _ ["a", "b"] {"a", "b"} "a" (by decide)
      (by decide) (by decide) (by decide)⟩

/-! ## Claim theorems: block-list reader -/

/-- C9 counterexample: a line consisting only of whitespace is *not*
skipped by the reader.  With no preceding header it triggers a
"block without parent" report, and under a header it inserts the empty
string into the current set (so the state differs from the
empty-line-skipped state). -/
theorem blankLine_counterexample :
    (readBBListFile [" "]).errors = 1 ∧
    readBBListFile ["!f", " "] ≠ readBBListFile ["!f"] := by
  constructor
  · decide
  · decide

/-- C9 (amended): only a line of length zero is skipped: it changes no
state (no entry, no insertion, no error report) and reading continues
with the subsequent lines. -/
theorem emptyLine_skipped (st : ReaderState) (rest : List String) :
    processLine st "" = st ∧
    List.foldl processLine st ("" :: rest) =
      List.foldl processLine st rest := by
  have h : processLine st "" = st := by
    have h0 : ("" : String).length = 0 := rfl
    simp [processLine, h0]
  exact ⟨h, by rw [List.foldl_cons, h]⟩

lemma insertIfAbsent_of_found {m : BBMap} {k : String} {S : Finset String}
    (h : lookupBB m k = some S) (v : Finset String) :
    insertIfAbsent m k v = m := by
  unfold insertIfAbsent
  rw [h]

lemma lookupBB_insertBlock {m : BBMap} {k : String} {S : Finset String}
    (h : lookupBB m k = some S) (b : String) :
    lookupBB (insertBlock m k b) k = some (insert b S) := by
  induction m with
  | nil => cases h
  | cons kv rest ih =>
    obtain ⟨k', v⟩ := kv
    by_cases hk : k' = k
    · subst hk
      have hv : v = S := by simpa [lookupBB] using h
      subst hv
      have hmap : insertBlock ((k', v) :: rest) k' b =
          (k', insert b v) :: insertBlock rest k' b := by
        simp [insertBlock]
      rw [hmap]
      simp [lookupBB]
    · simp only [lookupBB, if_neg hk] at h
      have hmap : insertBlock ((k', v) :: rest) k b =
          (k', v) :: insertBlock rest k b := by
        simp [insertBlock, hk]
      rw [hmap]
      simp only [lookupBB, if_neg hk]
      exact ih h

/-- C10: a duplicate header line for an already-introduced function name
leaves the map unchanged (insert-if-absent), makes that name current
again and reports no error; a block line following the duplicate header
is inserted into the set created by the first header (the groups merge). -/
theorem duplicateHeader_spec (st : ReaderState) (l₁ l₂ f b : String)
    (S : Finset String)
    (h₁len : l₁.length ≠ 0) (h₁bang : startsWithBang l₁ = true)
    (h₁name : ltrimBang (strTrim l₁) = f)
    (h₂len : l₂.length ≠ 0) (h₂bang : startsWithBang l₂ = false)
    (h₂name : strTrim l₂ = b)
    (hS : lookupBB st.map f = some S) :
    (processLine st l₁).map = st.map ∧
    (processLine st l₁).current = f ∧
    (processLine st l₁).errors = st.errors ∧
    lookupBB (processLine (processLine st l₁) l₂).map f =
      some (insert b S) ∧
    (processLine (processLine st l₁) l₂).errors = st.errors := by
  have hb2 : startsWithBang l₂ ≠ true := by rw [h₂bang]; decide
  have hst1 : processLine st l₁ = { st with current := f } := by
    simp [processLine, h₁len, h₁bang, h₁name, insertIfAbsent_of_found hS]
  have hst2 : processLine { st with current := f } l₂ =
      { st with current := f, map := insertBlock st.map f b } := by
    simp [processLine, h₂len, hb2, h₂name, hS]
  rw [hst1, hst2]
  exact ⟨rfl, rfl, rfl, lookupBB_insertBlock hS b, rfl⟩

/-- Witness for C10: the file `!f / a / !f / b` merges both groups under
the single entry created by the first header, with no error. -/
theorem duplicateHeader_spec_witness :
    (processLine (readBBListFile ["!f", "a"]) "!f").map =
      (readBBListFile ["!f", "a"]).map ∧
    (processLine (readBBListFile ["!f", "a"]) "!f").current = "f" ∧
    (processLine (readBBListFile ["!f", "a"]) "!f").errors =
      (readBBListFile ["!f", "a"]).errors ∧
    lookupBB (processLine (processLine (readBBListFile ["!f", "a"]) "!f")
        "b").map "f" = some (insert "b" {"a"}) ∧
    (processLine (processLine (readBBListFile ["!f", "a"]) "!f")
        "b").errors = (readBBListFile ["!f", "a"]).errors :=
  duplicateHeader_spec (readBBListFile ["!f", "a"]) "!f" "b" "f" "b" {"a"}
    (by decide) (by decide) (by decide) (by decide) (by decide) (by decide)
    (by decide)

/-- Witness for C8 on a region of two blocks with lines 3 and 7 and one
unlocated instruction. -/
theorem getRegionLoc_spec_witness :
    (getRegionLoc [[some 3, none], [some 7]]).1 ∈ [3, 7] ∧
    (getRegionLoc [[some 3, none], [some 7]]).2 ∈ [3, 7] ∧
    (getRegionLoc [[some 3, none], [some 7]]).1 ≤
      (getRegionLoc [[some 3, none], [some 7]]).2 := by
  have h := (getRegionLoc_spec [[some 3, none], [some 7]] [3, 7] (by decide)
    (by decide)).2 (by decide)
  exact ⟨h.1, h.2.1, h.2.2.2⟩

/-! ## Claim theorems: def/use source walker -/

lemma DFSAux_sound (g : List ValNode) : ∀ (fuel : Nat) (stack : List Val)
    (visited : Finset Val) (collected : List Val) (v : Val),
    v ∈ DFSAux g fuel stack visited collected →
    v ∈ collected ∨
      ((∃ s ∈ stack, Relation.ReflTransGen (tracedEdge g) s v) ∧
        ((nodeAt g v).isAllocaInst = true ∨
          (nodeAt g v).isGlobalValue = true)) := by
  intro fuel
  induction fuel with
  | zero => intro stack visited collected v hv; exact Or.inl hv
  | succ fuel ih =>
    intro stack visited collected v hv
    match stack with
    | [] => exact Or.inl hv
    | current :: stack =>
      rw [DFSAux] at hv
      by_cases hvis : current ∈ visited
      · rw [if_pos hvis] at hv
        rcases ih _ _ _ _ hv with h | ⟨⟨s, hs, hr⟩, hk⟩
        · exact Or.inl h
        · exact Or.inr ⟨⟨s, List.mem_cons_of_mem _ hs, hr⟩, hk⟩
      · rw [if_neg hvis] at hv
        rcases ih _ _ _ _ hv with h | ⟨⟨s, hs, hr⟩, hk⟩
        · by_cases hcol : (nodeAt g current).isAllocaInst = true ∨
              (nodeAt g current).isGlobalValue = true
          · rw [if_pos hcol] at h
            rcases List.mem_append.mp h with h' | h'
            · exact Or.inl h'
            · obtain rfl : v = current := by simpa using h'
              exact Or.inr ⟨⟨v, List.mem_cons_self v stack,
                Relation.ReflTransGen.refl⟩, hcol⟩
          · rw [if_neg hcol] at h
            exact Or.inl h
        · rcases List.mem_append.mp hs with h' | h'
          · exact Or.inr ⟨⟨current, List.mem_cons_self current stack,
              Relation.ReflTransGen.head h' hr⟩, hk⟩
          · exact Or.inr ⟨⟨s, List.mem_cons_of_mem _ h', hr⟩, hk⟩

lemma DFSInstruction_sound (g : List ValNode) (fuel I : Nat) (v : Val)
    (h : v ∈ DFSInstruction g fuel I) :
    Relation.ReflTransGen (tracedEdge g) I v ∧
      ((nodeAt g v).isAllocaInst = true ∨
        (nodeAt g v).isGlobalValue = true) := by
  rcases DFSAux_sound g fuel [I] ∅ [] v h with h' | ⟨⟨s, hs, hr⟩, hk⟩
  · cases h'
  · obtain rfl : s = I := by simpa using hs
    exact ⟨hr, hk⟩

/-- C4: expanding a store pushes only its destination (pointer) operand,
never the stored value; expanding any other instruction pushes exactly
its instruction-valued and global-valued operands; consequently every
source the walker collects is an alloca or global reached from the
analyzed instruction through traced hops only, so an allocation that
feeds the instruction solely through the value operand of a store is
never collected. -/
theorem DFSInstruction_store_rule :
    (∀ (g : List ValNode) (vop pop : Val) (parent : BBlock),
      pushedOperands g (.store vop pop parent) = [pop]) ∧
    (∀ (g : List ValNode) (n : ValNode),
      n.isInstruction = true → n.isStoreInst = false →
      pushedOperands g n = n.operands.filter
        (fun o => (nodeAt g o).isInstruction ||
          (nodeAt g o).isGlobalValue)) ∧
    (∀ (g : List ValNode) (fuel I : Nat) (v : Val),
      v ∈ DFSInstruction g fuel I →
      Relation.ReflTransGen (tracedEdge g) I v ∧
        ((nodeAt g v).isAllocaInst = true ∨
          (nodeAt g v).isGlobalValue = true)) := by
  refine ⟨fun g vop pop parent => rfl, fun g n hin hst => ?_,
    fun g fuel I v hv => DFSInstruction_sound g fuel I v hv⟩
  cases n <;> simp_all [pushedOperands, ValNode.isInstruction,
    ValNode.isStoreInst]

/-- Witness for C4 on `exampleIR`: the store 5 pushes only the address
operand 1; the load 3 pushes its alloca operand; the alloca 0 collected
for the load 3 is traced-reachable from it. -/
theorem DFSInstruction_store_rule_witness :
    pushedOperands exampleIR (.store 3 1 1) = [1] ∧
    pushedOperands exampleIR (.load [0] 1) = [0] ∧
    (Relation.ReflTransGen (tracedEdge exampleIR) 3 0 ∧
      ((nodeAt exampleIR 0).isAllocaInst = true ∨
        (nodeAt exampleIR 0).isGlobalValue = true)) :=
  ⟨DFSInstruction_store_rule.1 exampleIR 3 1 1,
    (DFSInstruction_store_rule.2.1 exampleIR (.load [0] 1) (by decide)
      (by decide)).trans (by decide),
    DFSInstruction_store_rule.2.2 exampleIR 20 3 0 (by decide)⟩

/-! ## Lemmas on the classification engine -/

lemma userStep_analyzed (g : List ValNode) (I : Val)
    (succs : Finset BBlock) (rb : Nat × Nat) (dbg : Val → Option Nat)
    (v : Val) (t : AnalysisState) (u : Val) :
    (userStep g I succs rb dbg v t u).analyzed = t.analyzed := by
  simp only [userStep]
  split_ifs <;> rfl

lemma userStep_inputargs (g : List ValNode) (I : Val)
    (succs : Finset BBlock) (rb : Nat × Nat) (dbg : Val → Option Nat)
    (v : Val) (t : AnalysisState) (u : Val) :
    (userStep g I succs rb dbg v t u).inputargs = t.inputargs := by
  simp only [userStep]
  split_ifs <;> rfl

lemma mem_userStep_outputargs (g : List ValNode) (I : Val)
    (succs : Finset BBlock) (rb : Nat × Nat) (dbg : Val → Option Nat)
    (v : Val) (t : AnalysisState) (u : Val) (x : Val) :
    x ∈ (userStep g I succs rb dbg v t u).outputargs ↔
      x ∈ t.outputargs ∨
        (x = v ∧ variableDeclaredInRegion v rb dbg = true ∧
          ((nodeAt g I).isMemCpyInst = true ∨
            (nodeAt g I).isStoreInst = true) ∧
          (nodeAt g u).parentOf ∈ succs) := by
  simp only [userStep]
  split_ifs <;> simp_all [Finset.mem_insert] <;> tauto

lemma userFold_analyzed (g : List ValNode) (I : Val)
    (succs : Finset BBlock) (rb : Nat × Nat) (dbg : Val → Option Nat)
    (v : Val) (us : List Val) : ∀ t : AnalysisState,
    (us.foldl (userStep g I succs rb dbg v) t).analyzed = t.analyzed := by
  induction us with
  | nil => intro t; rfl
  | cons u us ih =>
    intro t; rw [List.foldl_cons, ih, userStep_analyzed]

lemma userFold_inputargs (g : List ValNode) (I : Val)
    (succs : Finset BBlock) (rb : Nat × Nat) (dbg : Val → Option Nat)
    (v : Val) (us : List Val) : ∀ t : AnalysisState,
    (us.foldl (userStep g I succs rb dbg v) t).inputargs = t.inputargs := by
  induction us with
  | nil => intro t; rfl
  | cons u us ih =>
    intro t; rw [List.foldl_cons, ih, userStep_inputargs]

lemma mem_userFold_outputargs (g : List ValNode) (I : Val)
    (succs : Finset BBlock) (rb : Nat × Nat) (dbg : Val → Option Nat)
    (v : Val) (x : Val) (us : List Val) : ∀ t : AnalysisState,
    x ∈ (us.foldl (userStep g I succs rb dbg v) t).outputargs ↔
      x ∈ t.outputargs ∨
        (x = v ∧ variableDeclaredInRegion v rb dbg = true ∧
          ((nodeAt g I).isMemCpyInst = true ∨
            (nodeAt g I).isStoreInst = true) ∧
          ∃ u ∈ us, (nodeAt g u).parentOf ∈ succs) := by
  induction us with
  | nil => intro t; simp
  | cons u us ih =>
    intro t
    rw [List.foldl_cons, ih, mem_userStep_outputargs]
    simp only [List.mem_cons]
    constructor
    · rintro ((h | ⟨rfl, hd, hk, hu⟩) | ⟨rfl, hd, hk, u', hu', hp⟩)
      · exact Or.inl h
      · exact Or.inr ⟨rfl, hd, hk, u, Or.inl rfl, hu⟩
      · exact Or.inr ⟨rfl, hd, hk, u', Or.inr hu', hp⟩
    · rintro (h | ⟨rfl, hd, hk, u', hu', hp⟩)
      · exact Or.inl (Or.inl h)
      · rcases hu' with rfl | hu'
        · exact Or.inl (Or.inr ⟨rfl, hd, hk, hp⟩)
        · exact Or.inr ⟨rfl, hd, hk, u', hu', hp⟩

lemma processSource_of_analyzed (g : List ValNode) (I : Val)
    (preds succs : Finset BBlock) (rb : Nat × Nat)
    (dbg : Val → Option Nat) (s : AnalysisState) (v : Val)
    (h : v ∈ s.analyzed) :
    processSource g I preds succs rb dbg s v = s := by
  unfold processSource
  rw [if_pos h]

lemma processSource_analyzed (g : List ValNode) (I : Val)
    (preds succs : Finset BBlock) (rb : Nat × Nat)
    (dbg : Val → Option Nat) (s : AnalysisState) (v : Val) :
    (processSource g I preds succs rb dbg s v).analyzed =
      insert v s.analyzed := by
  unfold processSource
  by_cases h : v ∈ s.analyzed
  · rw [if_pos h]
    exact (Finset.insert_eq_self.mpr h).symm
  · rw [if_neg h]
    split_ifs <;> simp [userFold_analyzed]

lemma mem_processSource_inputargs (g : List ValNode) (I : Val)
    (preds succs : Finset BBlock) (rb : Nat × Nat)
    (dbg : Val → Option Nat) (s : AnalysisState) (v : Val) (x : Val) :
    x ∈ (processSource g I preds succs rb dbg s v).inputargs ↔
      x ∈ s.inputargs ∨
        (x = v ∧ v ∉ s.analyzed ∧ (nodeAt g v).isAllocaInst = true ∧
          (nodeAt g v).parentOf ∈ preds ∧
          variableDeclaredInRegion v rb dbg = false) := by
  unfold processSource
  split_ifs with h1 h2 h3 <;>
    simp_all [userFold_inputargs, Finset.mem_insert]
  tauto

lemma mem_processSource_outputargs (g : List ValNode) (I : Val)
    (preds succs : Finset BBlock) (rb : Nat × Nat)
    (dbg : Val → Option Nat) (s : AnalysisState) (v : Val) (x : Val) :
    x ∈ (processSource g I preds succs rb dbg s v).outputargs ↔
      x ∈ s.outputargs ∨
        (x = v ∧ v ∉ s.analyzed ∧ (nodeAt g v).isAllocaInst = true ∧
          variableDeclaredInRegion v rb dbg = true ∧
          ((nodeAt g I).isMemCpyInst = true ∨
            (nodeAt g I).isStoreInst = true) ∧
          ∃ u ∈ usersOf g v, (nodeAt g u).parentOf ∈ succs) := by
  unfold processSource
  split_ifs with h1 h2 h3 <;>
    simp_all [mem_userFold_outputargs, Finset.mem_insert]

lemma sourceFold_analyzed (g : List ValNode) (I : Val)
    (preds succs : Finset BBlock) (rb : Nat × Nat)
    (dbg : Val → Option Nat) (l : List Val) : ∀ s : AnalysisState,
    (l.foldl (processSource g I preds succs rb dbg) s).analyzed =
      s.analyzed ∪ l.toFinset := by
  induction l with
  | nil => intro s; simp
  | cons v l ih =>
    intro s
    rw [List.foldl_cons, ih, processSource_analyzed]
    ext y
    simp [Finset.mem_union, Finset.mem_insert]

lemma mem_sourceFold_inputargs (g : List ValNode) (I : Val)
    (preds succs : Finset BBlock) (rb : Nat × Nat)
    (dbg : Val → Option Nat) (x : Val) (l : List Val) :
    ∀ s : AnalysisState,
    x ∈ (l.foldl (processSource g I preds succs rb dbg) s).inputargs ↔
      x ∈ s.inputargs ∨
        (x ∈ l ∧ x ∉ s.analyzed ∧ (nodeAt g x).isAllocaInst = true ∧
          (nodeAt g x).parentOf ∈ preds ∧
          variableDeclaredInRegion x rb dbg = false) := by
  induction l with
  | nil => intro s; simp
  | cons v l ih =>
    intro s
    rw [List.foldl_cons, ih, mem_processSource_inputargs,
      processSource_analyzed]
    simp only [Finset.mem_insert, List.mem_cons, not_or]
    constructor
    · rintro ((h | ⟨rfl, hna, hc⟩) | ⟨hl, ⟨hne, hna⟩, hc⟩)
      · exact Or.inl h
      · exact Or.inr ⟨Or.inl rfl, hna, hc⟩
      · exact Or.inr ⟨Or.inr hl, hna, hc⟩
    · rintro (h | ⟨rfl | hl, hna, hc⟩)
      · exact Or.inl (Or.inl h)
      · exact Or.inl (Or.inr ⟨rfl, hna, hc⟩)
      · by_cases hxv : x = v
        · subst hxv
          exact Or.inl (Or.inr ⟨rfl, hna, hc⟩)
        · exact Or.inr ⟨hl, ⟨hxv, hna⟩, hc⟩

lemma mem_sourceFold_outputargs (g : List ValNode) (I : Val)
    (preds succs : Finset BBlock) (rb : Nat × Nat)
    (dbg : Val → Option Nat) (x : Val) (l : List Val) :
    ∀ s : AnalysisState,
    x ∈ (l.foldl (processSource g I preds succs rb dbg) s).outputargs ↔
      x ∈ s.outputargs ∨
        (x ∈ l ∧ x ∉ s.analyzed ∧ (nodeAt g x).isAllocaInst = true ∧
          variableDeclaredInRegion x rb dbg = true ∧
          ((nodeAt g I).isMemCpyInst = true ∨
            (nodeAt g I).isStoreInst = true) ∧
          ∃ u ∈ usersOf g x, (nodeAt g u).parentOf ∈ succs) := by
  induction l with
  | nil => intro s; simp
  | cons v l ih =>
    intro s
    rw [List.foldl_cons, ih, mem_processSource_outputargs,
      processSource_analyzed]
    simp only [Finset.mem_insert, List.mem_cons, not_or]
    constructor
    · rintro ((h | ⟨rfl, hna, hc⟩) | ⟨hl, ⟨hne, hna⟩, hc⟩)
      · exact Or.inl h
      · exact Or.inr ⟨Or.inl rfl, hna, hc⟩
      · exact Or.inr ⟨Or.inr hl, hna, hc⟩
    · rintro (h | ⟨rfl | hl, hna, hc⟩)
      · exact Or.inl (Or.inl h)
      · exact Or.inl (Or.inr ⟨rfl, hna, hc⟩)
      · by_cases hxv : x = v
        · subst hxv
          exact Or.inl (Or.inr ⟨rfl, hna, hc⟩)
        · exact Or.inr ⟨hl, ⟨hxv, hna⟩, hc⟩

lemma mem_analyzeOperands_inputargs (g : List ValNode) (fuel : Nat)
    (I : Val) (preds succs : Finset BBlock) (rb : Nat × Nat)
    (dbg : Val → Option Nat) (s : AnalysisState) (x : Val) :
    x ∈ (analyzeOperands g fuel I preds succs rb dbg s).inputargs ↔
      x ∈ s.inputargs ∨
        (x ∈ DFSInstruction g fuel I ∧ x ∉ s.analyzed ∧
          (nodeAt g x).isAllocaInst = true ∧
          (nodeAt g x).parentOf ∈ preds ∧
          variableDeclaredInRegion x rb dbg = false) :=
  mem_sourceFold_inputargs g I preds succs rb dbg x
    (DFSInstruction g fuel I) s

lemma mem_analyzeOperands_outputargs (g : List ValNode) (fuel : Nat)
    (I : Val) (preds succs : Finset BBlock) (rb : Nat × Nat)
    (dbg : Val → Option Nat) (s : AnalysisState) (x : Val) :
    x ∈ (analyzeOperands g fuel I preds succs rb dbg s).outputargs ↔
      x ∈ s.outputargs ∨
        (x ∈ DFSInstruction g fuel I ∧ x ∉ s.analyzed ∧
          (nodeAt g x).isAllocaInst = true ∧
          variableDeclaredInRegion x rb dbg = true ∧
          ((nodeAt g I).isMemCpyInst = true ∨
            (nodeAt g I).isStoreInst = true) ∧
          ∃ u ∈ usersOf g x, (nodeAt g u).parentOf ∈ succs) :=
  mem_sourceFold_outputargs g I preds succs rb dbg x
    (DFSInstruction g fuel I) s

lemma analyzeOperands_analyzed (g : List ValNode) (fuel : Nat) (I : Val)
    (preds succs : Finset BBlock) (rb : Nat × Nat)
    (dbg : Val → Option Nat) (s : AnalysisState) :
    (analyzeOperands g fuel I preds succs rb dbg s).analyzed =
      s.analyzed ∪ (DFSInstruction g fuel I).toFinset :=
  sourceFold_analyzed g I preds succs rb dbg (DFSInstruction g fuel I) s

lemma analyzeRegion_cons (g : List ValNode) (fuel : Nat) (I : Val)
    (instrs : List Val) (preds succs : Finset BBlock) (rb : Nat × Nat)
    (dbg : Val → Option Nat) (s : AnalysisState) :
    analyzeRegion g fuel (I :: instrs) preds succs rb dbg s =
      analyzeRegion g fuel instrs preds succs rb dbg
        (if relevantInstr (nodeAt g I) then
          analyzeOperands g fuel I preds succs rb dbg s
        else s) := by
  rw [analyzeRegion, List.foldl_cons]
  rfl

lemma analyzeRegion_analyzed_mono (g : List ValNode) (fuel : Nat)
    (preds succs : Finset BBlock) (rb : Nat × Nat)
    (dbg : Val → Option Nat) (instrs : List Val) :
    ∀ s : AnalysisState,
    s.analyzed ⊆
      (analyzeRegion g fuel instrs preds succs rb dbg s).analyzed := by
  induction instrs with
  | nil => intro s; exact Finset.Subset.refl _
  | cons I instrs ih =>
    intro s
    rw [analyzeRegion_cons]
    refine Finset.Subset.trans ?_ (ih _)
    split_ifs with h
    · rw [analyzeOperands_analyzed]
      exact Finset.subset_union_left
    · exact Finset.Subset.refl _

lemma analyzeRegion_mem_analyzed (g : List ValNode) (fuel : Nat)
    (preds succs : Finset BBlock) (rb : Nat × Nat)
    (dbg : Val → Option Nat) (I v : Val)
    (hrel : relevantInstr (nodeAt g I) = true)
    (hv : v ∈ DFSInstruction g fuel I) (instrs : List Val) :
    ∀ s : AnalysisState, I ∈ instrs →
    v ∈ (analyzeRegion g fuel instrs preds succs rb dbg s).analyzed := by
  induction instrs with
  | nil => intro s hI; cases hI
  | cons J instrs ih =>
    intro s hI
    rw [analyzeRegion_cons]
    rcases List.mem_cons.mp hI with rfl | hI'
    · apply analyzeRegion_analyzed_mono
      rw [if_pos hrel, analyzeOperands_analyzed]
      exact Finset.mem_union_right _ (List.mem_toFinset.mpr hv)
    · exact ih _ hI'

lemma processSource_input_invariant (g : List ValNode) (I : Val)
    (preds succs : Finset BBlock) (rb : Nat × Nat)
    (dbg : Val → Option Nat) (s : AnalysisState) (v : Val)
    (hinv : ∀ w, InputCondition g preds rb dbg w → w ∈ s.analyzed →
      w ∈ s.inputargs) :
    ∀ w, InputCondition g preds rb dbg w →
      w ∈ (processSource g I preds succs rb dbg s v).analyzed →
      w ∈ (processSource g I preds succs rb dbg s v).inputargs := by
  intro w hw hmem
  rw [processSource_analyzed] at hmem
  rw [mem_processSource_inputargs]
  rcases Finset.mem_insert.mp hmem with rfl | hmem'
  · by_cases hva : w ∈ s.analyzed
    · exact Or.inl (hinv w hw hva)
    · exact Or.inr ⟨rfl, hva, hw.1, hw.2.1, hw.2.2⟩
  · exact Or.inl (hinv w hw hmem')

lemma sourceFold_input_invariant (g : List ValNode) (I : Val)
    (preds succs : Finset BBlock) (rb : Nat × Nat)
    (dbg : Val → Option Nat) (l : List Val) :
    ∀ s : AnalysisState,
    (∀ w, InputCondition g preds rb dbg w → w ∈ s.analyzed →
      w ∈ s.inputargs) →
    ∀ w, InputCondition g preds rb dbg w →
      w ∈ (l.foldl (processSource g I preds succs rb dbg) s).analyzed →
      w ∈ (l.foldl (processSource g I preds succs rb dbg) s).inputargs := by
  induction l with
  | nil => intro s hinv; exact hinv
  | cons v l ih =>
    intro s hinv
    rw [List.foldl_cons]
    exact ih _ (processSource_input_invariant g I preds succs rb dbg s v hinv)

lemma analyzeRegion_input_invariant (g : List ValNode) (fuel : Nat)
    (preds succs : Finset BBlock) (rb : Nat × Nat)
    (dbg : Val → Option Nat) (instrs : List Val) :
    ∀ s : AnalysisState,
    (∀ w, InputCondition g preds rb dbg w → w ∈ s.analyzed →
      w ∈ s.inputargs) →
    ∀ w, InputCondition g preds rb dbg w →
      w ∈ (analyzeRegion g fuel instrs preds succs rb dbg s).analyzed →
      w ∈ (analyzeRegion g fuel instrs preds succs rb dbg s).inputargs := by
  induction instrs with
  | nil => intro s hinv; exact hinv
  | cons I instrs ih =>
    intro s hinv
    rw [analyzeRegion_cons]
    split_ifs with h
    · exact ih _ (sourceFold_input_invariant g I preds succs rb dbg
        (DFSInstruction g fuel I) s hinv)
    · exact ih _ hinv

lemma analyzeRegion_inputargs_of_declared (g : List ValNode) (fuel : Nat)
    (preds succs : Finset BBlock) (rb : Nat × Nat)
    (dbg : Val → Option Nat) (x : Val)
    (hd : variableDeclaredInRegion x rb dbg = true) (instrs : List Val) :
    ∀ s : AnalysisState,
    x ∈ (analyzeRegion g fuel instrs preds succs rb dbg s).inputargs ↔
      x ∈ s.inputargs := by
  induction instrs with
  | nil => intro s; exact Iff.rfl
  | cons I instrs ih =>
    intro s
    rw [analyzeRegion_cons]
    split_ifs with h
    · rw [ih, mem_analyzeOperands_inputargs]
      simp [hd]
    · exact ih s

lemma analyzeRegion_outputargs_of_not_declared (g : List ValNode)
    (fuel : Nat) (preds succs : Finset BBlock) (rb : Nat × Nat)
    (dbg : Val → Option Nat) (x : Val)
    (hd : variableDeclaredInRegion x rb dbg = false) (instrs : List Val) :
    ∀ s : AnalysisState,
    x ∈ (analyzeRegion g fuel instrs preds succs rb dbg s).outputargs ↔
      x ∈ s.outputargs := by
  induction instrs with
  | nil => intro s; exact Iff.rfl
  | cons I instrs ih =>
    intro s
    rw [analyzeRegion_cons]
    split_ifs with h
    · rw [ih, mem_analyzeOperands_outputargs]
      simp [hd]
    · exact ih s

lemma analyzeRegion_of_analyzed (g : List ValNode) (fuel : Nat)
    (preds succs : Finset BBlock) (rb : Nat × Nat)
    (dbg : Val → Option Nat) (v : Val) (instrs : List Val) :
    ∀ s : AnalysisState, v ∈ s.analyzed →
    v ∈ (analyzeRegion g fuel instrs preds succs rb dbg s).analyzed ∧
      (v ∈ (analyzeRegion g fuel instrs preds succs rb dbg s).inputargs ↔
        v ∈ s.inputargs) ∧
      (v ∈ (analyzeRegion g fuel instrs preds succs rb dbg s).outputargs ↔
        v ∈ s.outputargs) := by
  induction instrs with
  | nil => intro s hv; exact ⟨hv, Iff.rfl, Iff.rfl⟩
  | cons I instrs ih =>
    intro s hv
    rw [analyzeRegion_cons]
    split_ifs with h
    · have h1 : v ∈ (analyzeOperands g fuel I preds succs rb dbg s).analyzed := by
        rw [analyzeOperands_analyzed]
        exact Finset.mem_union_left _ hv
      have h2 := ih (analyzeOperands g fuel I preds succs rb dbg s) h1
      refine ⟨h2.1, h2.2.1.trans ?_, h2.2.2.trans ?_⟩
      · rw [mem_analyzeOperands_inputargs]
        simp [hv]
      · rw [mem_analyzeOperands_outputargs]
        simp [hv]
    · exact ih s hv

lemma variableDeclaredInRegion_eq_false_of_outside (v : Val)
    (rb : Nat × Nat) (dbg : Val → Option Nat) (line : Nat)
    (hd : dbg v = some line) (hout : line < rb.1 ∨ rb.2 < line) :
    variableDeclaredInRegion v rb dbg = false := by
  unfold variableDeclaredInRegion
  rw [hd]
  simp only [Bool.and_eq_false_imp, decide_eq_true_eq, decide_eq_false_iff_not]
  omega

lemma variableDeclaredInRegion_eq_true_of_inside (v : Val)
    (rb : Nat × Nat) (dbg : Val → Option Nat) (line : Nat)
    (hd : dbg v = some line) (h1 : rb.1 ≤ line) (h2 : line ≤ rb.2) :
    variableDeclaredInRegion v rb dbg = true := by
  unfold variableDeclaredInRegion
  rw [hd]
  simp only [Bool.and_eq_true, decide_eq_true_eq]
  omega

/-! ## Claim theorems: scope and classification engine -/

/-- C1: a local allocation collected as a source of a relevant
(load/store/memcpy) instruction of the region, whose containing block is
in the predecessor set and whose debug-declared line lies outside the
region's line bounds, ends up in the Input-Set of the analysis run; and
a variable whose declared line lies strictly within the bounds is never
added to the Input-Set. -/
theorem inputSet_rule :
    (∀ (g : List ValNode) (fuel : Nat) (instrs : List Val)
      (preds succs : Finset BBlock) (rb : Nat × Nat)
      (dbg : Val → Option Nat) (I v line : Nat),
      I ∈ instrs → relevantInstr (nodeAt g I) = true →
      v ∈ DFSInstruction g fuel I →
      (nodeAt g v).isAllocaInst = true → (nodeAt g v).parentOf ∈ preds →
      dbg v = some line → (line < rb.1 ∨ rb.2 < line) →
      v ∈ (analyzeRegion g fuel instrs preds succs rb dbg
        ⟨∅, ∅, ∅⟩).inputargs) ∧
    (∀ (g : List ValNode) (fuel : Nat) (instrs : List Val)
      (preds succs : Finset BBlock) (rb : Nat × Nat)
      (dbg : Val → Option Nat) (s : AnalysisState) (v line : Nat),
      dbg v = some line → rb.1 < line → line < rb.2 →
      (v ∈ (analyzeRegion g fuel instrs preds succs rb dbg s).inputargs ↔
        v ∈ s.inputargs)) := by
  constructor
  · intro g fuel instrs preds succs rb dbg I v line hI hrel hv ha hp hd hout
    have hdf := variableDeclaredInRegion_eq_false_of_outside v rb dbg line
      hd hout
    have hmem := analyzeRegion_mem_analyzed g fuel preds succs rb dbg I v
      hrel hv instrs ⟨∅, ∅, ∅⟩ hI
    exact analyzeRegion_input_invariant g fuel preds succs rb dbg instrs
      ⟨∅, ∅, ∅⟩ (fun w _ hw => absurd hw (Finset.not_mem_empty w)) v
      ⟨ha, hp, hdf⟩ hmem
  · intro g fuel instrs preds succs rb dbg s v line hd h1 h2
    exact analyzeRegion_inputargs_of_declared g fuel preds succs rb dbg v
      (variableDeclaredInRegion_eq_true_of_inside v rb dbg line hd
        (le_of_lt h1) (le_of_lt h2)) instrs s

/-- Witness for C1 on `exampleIR`: the alloca 0 (predecessor block,
declared at line 1, outside bounds (5, 6), loaded by instruction 3)
enters the Input-Set; the alloca 1 (declared at line 5, strictly inside
bounds (4, 6)) is not added. -/
theorem inputSet_rule_witness :
    0 ∈ (analyzeRegion exampleIR 20 [2, 3, 5, 8] {0} {2} (5, 6) exampleDbg
      ⟨∅, ∅, ∅⟩).inputargs ∧
    (1 ∈ (analyzeRegion exampleIR 20 [2, 3, 5, 8] {0} {2} (4, 6) exampleDbg
      ⟨∅, ∅, ∅⟩).inputargs ↔
      1 ∈ (⟨∅, ∅, ∅⟩ : AnalysisState).inputargs) :=
  ⟨inputSet_rule.1 exampleIR 20 [2, 3, 5, 8] {0} {2} (5, 6) exampleDbg 3 0 1
      (by decide) (by decide) (by decide) (by decide) (by decide) (by decide)
      (Or.inl (by decide)),
    inputSet_rule.2 exampleIR 20 [2, 3, 5, 8] {0} {2} (4, 6) exampleDbg
      ⟨∅, ∅, ∅⟩ 1 5 (by decide) (by decide) (by decide)⟩

/-- C2: a not-yet-analyzed local allocation collected for instruction `I`
is added to the Output-Set exactly when `I` is a store or memory copy,
some user of the allocation lives in a successor block and the variable's
declared line lies inside the region bounds; a variable whose declared
line lies outside the bounds is never added to the Output-Set during a
run. -/
theorem outputSet_rule :
    (∀ (g : List ValNode) (fuel : Nat) (I : Val)
      (preds succs : Finset BBlock) (rb : Nat × Nat)
      (dbg : Val → Option Nat) (s : AnalysisState) (v : Val),
      v ∉ s.analyzed →
      (v ∈ (analyzeOperands g fuel I preds succs rb dbg s).outputargs ↔
        v ∈ s.outputargs ∨
          (v ∈ DFSInstruction g fuel I ∧
            (nodeAt g v).isAllocaInst = true ∧
            ((nodeAt g I).isStoreInst = true ∨
              (nodeAt g I).isMemCpyInst = true) ∧
            (∃ u ∈ usersOf g v, (nodeAt g u).parentOf ∈ succs) ∧
            variableDeclaredInRegion v rb dbg = true))) ∧
    (∀ (g : List ValNode) (fuel : Nat) (instrs : List Val)
      (preds succs : Finset BBlock) (rb : Nat × Nat)
      (dbg : Val → Option Nat) (s : AnalysisState) (v line : Nat),
      dbg v = some line → (line < rb.1 ∨ rb.2 < line) →
      (v ∈ (analyzeRegion g fuel instrs preds succs rb dbg s).outputargs ↔
        v ∈ s.outputargs)) := by
  constructor
  · intro g fuel I preds succs rb dbg s v hna
    rw [mem_analyzeOperands_outputargs]
    simp only [hna, not_false_iff, true_and]
    tauto
  · intro g fuel instrs preds succs rb dbg s v line hd hout
    exact analyzeRegion_outputargs_of_not_declared g fuel preds succs rb dbg
      v (variableDeclaredInRegion_eq_false_of_outside v rb dbg line hd hout)
      instrs s

/-- Witness for C2 on `exampleIR`: the alloca 1 (declared at line 5,
inside bounds (5, 6), stored to by instruction 2, read by the load 4 in
successor block 2) enters the Output-Set; the alloca 0 (declared at
line 1, outside the bounds) never does. -/
theorem outputSet_rule_witness :
    1 ∈ (analyzeOperands exampleIR 20 2 {0} {2} (5, 6) exampleDbg
      ⟨∅, ∅, ∅⟩).outputargs ∧
    (0 ∈ (analyzeRegion exampleIR 20 [2, 3, 5, 8] {0} {2} (5, 6) exampleDbg
      ⟨∅, ∅, ∅⟩).outputargs ↔
      0 ∈ (⟨∅, ∅, ∅⟩ : AnalysisState).outputargs) :=
  ⟨(outputSet_rule.1 exampleIR 20 2 {0} {2} (5, 6) exampleDbg ⟨∅, ∅, ∅⟩ 1
      (by decide)).mpr
      (Or.inr ⟨by decide, by decide, Or.inl (by decide),
        ⟨4, by decide, by decide⟩, by decide⟩),
    outputSet_rule.2 exampleIR 20 [2, 3, 5, 8] {0} {2} (5, 6) exampleDbg
      ⟨∅, ∅, ∅⟩ 0 1 (by decide) (Or.inl (by decide))⟩

/-- C5: every source collected for an analyzed instruction is marked in
the `analyzed` set, and a value already marked analyzed is skipped by the
whole rest of the run: its Input-Set and Output-Set memberships never
change again, and it stays marked. -/
theorem analyzedOnce_spec :
    (∀ (g : List ValNode) (fuel : Nat) (I : Val)
      (preds succs : Finset BBlock) (rb : Nat × Nat)
      (dbg : Val → Option Nat) (s : AnalysisState) (v : Val),
      v ∈ DFSInstruction g fuel I →
      v ∈ (analyzeOperands g fuel I preds succs rb dbg s).analyzed) ∧
    (∀ (g : List ValNode) (fuel : Nat) (instrs : List Val)
      (preds succs : Finset BBlock) (rb : Nat × Nat)
      (dbg : Val → Option Nat) (s : AnalysisState) (v : Val),
      v ∈ s.analyzed →
      v ∈ (analyzeRegion g fuel instrs preds succs rb dbg s).analyzed ∧
        (v ∈ (analyzeRegion g fuel instrs preds succs rb dbg s).inputargs ↔
          v ∈ s.inputargs) ∧
        (v ∈ (analyzeRegion g fuel instrs preds succs rb dbg s).outputargs ↔
          v ∈ s.outputargs)) := by
  constructor
  · intro g fuel I preds succs rb dbg s v hv
    rw [analyzeOperands_analyzed]
    exact Finset.mem_union_right _ (List.mem_toFinset.mpr hv)
  · intro g fuel instrs preds succs rb dbg s v hv
    exact analyzeRegion_of_analyzed g fuel preds succs rb dbg v instrs s hv

/-- Witness for C5 on `exampleIR`: the alloca 1 is marked analyzed by
instruction 2, and a pre-analyzed alloca 1 is skipped by the whole run
(classification unchanged). -/
theorem analyzedOnce_spec_witness :
    1 ∈ (analyzeOperands exampleIR 20 2 {0} {2} (5, 6) exampleDbg
      ⟨∅, ∅, ∅⟩).analyzed ∧
    (1 ∈ (analyzeRegion exampleIR 20 [2, 3, 5, 8] {0} {2} (5, 6) exampleDbg
      ⟨{1}, ∅, ∅⟩).analyzed ∧
      (1 ∈ (analyzeRegion exampleIR 20 [2, 3, 5, 8] {0} {2} (5, 6)
        exampleDbg ⟨{1}, ∅, ∅⟩).inputargs ↔
        1 ∈ (⟨{1}, ∅, ∅⟩ : AnalysisState).inputargs) ∧
      (1 ∈ (analyzeRegion exampleIR 20 [2, 3, 5, 8] {0} {2} (5, 6)
        exampleDbg ⟨{1}, ∅, ∅⟩).outputargs ↔
        1 ∈ (⟨{1}, ∅, ∅⟩ : AnalysisState).outputargs)) :=
  ⟨analyzedOnce_spec.1 exampleIR 20 2 {0} {2} (5, 6) exampleDbg ⟨∅, ∅, ∅⟩ 1
      (by decide),
    analyzedOnce_spec.2 exampleIR 20 [2, 3, 5, 8] {0} {2} (5, 6) exampleDbg
      ⟨{1}, ∅, ∅⟩ 1 (by decide)⟩

/-- C7: a variable with no debug-metadata entry fails the
declared-in-region test unconditionally and the anomaly notice is
emitted; consequently it is never added to the Output-Set during a run,
yet it remains eligible for the (outside-region) Input-Set rule, and the
analysis still classifies every other variable. -/
theorem missingDebugInfo_spec (g : List ValNode) (fuel : Nat)
    (instrs : List Val) (preds succs : Finset BBlock) (rb : Nat × Nat)
    (dbg : Val → Option Nat) (v : Val) (hnone : dbg v = none) :
    variableDeclaredInRegion v rb dbg = false ∧
    declAnomalyReported v dbg = true ∧
    (∀ s : AnalysisState,
      v ∈ (analyzeRegion g fuel instrs preds succs rb dbg s).outputargs ↔
        v ∈ s.outputargs) ∧
    (∀ I, I ∈ instrs → relevantInstr (nodeAt g I) = true →
      v ∈ DFSInstruction g fuel I → (nodeAt g v).isAllocaInst = true →
      (nodeAt g v).parentOf ∈ preds →
      v ∈ (analyzeRegion g fuel instrs preds succs rb dbg
        ⟨∅, ∅, ∅⟩).inputargs) ∧
    (∀ (w lw I : Nat), dbg w = some lw → (lw < rb.1 ∨ rb.2 < lw) →
      I ∈ instrs → relevantInstr (nodeAt g I) = true →
      w ∈ DFSInstruction g fuel I → (nodeAt g w).isAllocaInst = true →
      (nodeAt g w).parentOf ∈ preds →
      w ∈ (analyzeRegion g fuel instrs preds succs rb dbg
        ⟨∅, ∅, ∅⟩).inputargs) := by
  have hdf : variableDeclaredInRegion v rb dbg = false := by
    unfold variableDeclaredInRegion
    rw [hnone]
  refine ⟨hdf, ?_, ?_, ?_, ?_⟩
  · unfold declAnomalyReported
    rw [hnone]
    rfl
  · intro s
    exact analyzeRegion_outputargs_of_not_declared g fuel preds succs rb dbg
      v hdf instrs s
  · intro I hI hrel hv ha hp
    have hmem := analyzeRegion_mem_analyzed g fuel preds succs rb dbg I v
      hrel hv instrs ⟨∅, ∅, ∅⟩ hI
    exact analyzeRegion_input_invariant g fuel preds succs rb dbg instrs
      ⟨∅, ∅, ∅⟩ (fun w _ hw => absurd hw (Finset.not_mem_empty w)) v
      ⟨ha, hp, hdf⟩ hmem
  · intro w lw I hd hout hI hrel hv ha hp
    have hdw := variableDeclaredInRegion_eq_false_of_outside w rb dbg lw
      hd hout
    have hmem := analyzeRegion_mem_analyzed g fuel preds succs rb dbg I w
      hrel hv instrs ⟨∅, ∅, ∅⟩ hI
    exact analyzeRegion_input_invariant g fuel preds succs rb dbg instrs
      ⟨∅, ∅, ∅⟩ (fun u _ hu => absurd hu (Finset.not_mem_empty u)) w
      ⟨ha, hp, hdw⟩ hmem

/-- Witness for C7 on `exampleIR`: the alloca 7 has no debug entry: the
scope test fails, the anomaly is reported, 7 never reaches the
Output-Set, yet 7 (allocated in predecessor block 0, loaded by
instruction 8) reaches the Input-Set, and the unrelated alloca 0 is
still classified as an input. -/
theorem missingDebugInfo_spec_witness :
    variableDeclaredInRegion 7 (5, 6) exampleDbg = false ∧
    declAnomalyReported 7 exampleDbg = true ∧
    (7 ∈ (analyzeRegion exampleIR 20 [2, 3, 5, 8] {0} {2} (5, 6) exampleDbg
      ⟨∅, ∅, ∅⟩).outputargs ↔
      7 ∈ (⟨∅, ∅, ∅⟩ : AnalysisState).outputargs) ∧
    7 ∈ (analyzeRegion exampleIR 20 [2, 3, 5, 8] {0} {2} (5, 6) exampleDbg
      ⟨∅, ∅, ∅⟩).inputargs ∧
    0 ∈ (analyzeRegion exampleIR 20 [2, 3, 5, 8] {0} {2} (5, 6) exampleDbg
      ⟨∅, ∅, ∅⟩).inputargs := by
  have h := missingDebugInfo_spec exampleIR 20 [2, 3, 5, 8] {0} {2} (5, 6)
    exampleDbg 7 (by decide)
  exact ⟨h.1, h.2.1, h.2.2.1 ⟨∅, ∅, ∅⟩,
    h.2.2.2.1 8 (by decide) (by decide) (by decide) (by decide) (by decide),
    h.2.2.2.2 0 1 3 (by decide) (Or.inl (by decide)) (by decide) (by decide)
      (by decide) (by decide) (by decide)⟩

end FuncExtract
